import Mathlib

/-!
Verification of the livestock repository (NIFTY-50 stock-price utilities).

The development shallowly embeds the two Python source files:
  - `src/stock_price.py` — `ScreenerPriceScraper` (HTML table extraction,
    pagination, lazy lookup) and `InteractiveStockFetcher` (bulk search);
  - `src/main.py` — `NIFTY50StockPrice` (ticker normalization and quote
    fallback over the yfinance provider).

HTML is modelled at the level BeautifulSoup exposes it to the code: a
document is an optional first table, a table is a list of rows, a row is a
list of td-cells, and a cell carries its text plus the text of an optional
anchor.  Machine floats are modelled as exact values: `float()` applied to a
string is modelled by `pyFloat`, which follows CPython's documented grammar
for `float(str)` (optional surrounding whitespace, optional sign, decimal
digits with underscore separators, optional fraction and exponent, and the
special spellings inf / infinity / nan, case-insensitively), restricted to
ASCII digits and ASCII whitespace, and returns the exactly-represented
decimal value as a rational.  Python dicts keyed by strings are modelled as
insertion-ordered association lists with first-key lookup and
update-in-place / append-at-end assignment.
-/

namespace Livestock

/-- Result of Python `float(s)`: a finite rational (the exact decimal value),
one of the two infinities, or NaN.  CPython's `float` accepts the spellings
`inf`, `infinity` and `nan` (any case, optionally signed). -/
inductive PyFloat where
  | finite (q : ℚ)
  | inf
  | negInf
  | nan
deriving DecidableEq

/-- A `PyFloat` is finite when it is neither an infinity nor NaN. -/
def PyFloat.isFinite : PyFloat → Bool
  | .finite _ => true
  | _ => false

/-- Models Python `str.strip()` (ASCII whitespace): drop whitespace from both
ends of the character data. -/
def pyStrip (s : String) : String :=
  String.mk (((s.data.dropWhile Char.isWhitespace).reverse.dropWhile
    Char.isWhitespace).reverse)

/-- Models the call `.replace(',', '')` in `_parse_table` (line 133 of
`stock_price.py`): replacing every comma by the empty string drops every
comma. -/
def stripCommas (s : String) : String :=
  String.mk (s.data.filter (fun c => decide (c ≠ ',')))

/-- Models Python `str.lower()` on ASCII data. -/
def pyLower (s : String) : String :=
  String.mk (s.data.map Char.toLower)

/-- `startsWithSeq needle hay` holds when `needle` is an initial segment of
`hay`. -/
def startsWithSeq : List Char → List Char → Bool
  | [], _ => true
  | _ :: _, [] => false
  | a :: as, b :: bs => decide (a = b) && startsWithSeq as bs

/-- `containsSeq needle hay` holds when `needle` occurs contiguously inside
`hay`; it models Python's substring test `needle in hay`. -/
def containsSeq (needle : List Char) : List Char → Bool
  | [] => needle.isEmpty
  | c :: cs => startsWithSeq needle (c :: cs) || containsSeq needle cs

/-- Python's `sub in s` substring test on strings. -/
def pyIn (sub s : String) : Bool :=
  containsSeq sub.data s.data

/-- Python's `s.endswith(suffix)`: `suffix` is a final segment of `s`. -/
def pyEndsWith (s suffix : String) : Bool :=
  startsWithSeq suffix.data.reverse s.data.reverse

/-- Consume the continuation of a `digitpart` of CPython's float grammar
(`digit (["_"] digit)*`): after a first digit has been read, read further
digits, allowing a single underscore between two digits.  Returns the digits
read (underscores dropped) and the unconsumed remainder. -/
def digitsLoop : List Char → List Char × List Char
  | [] => ([], [])
  | c :: cs =>
    if c.isDigit then
      let p := digitsLoop cs
      (c :: p.1, p.2)
    else if c = '_' then
      match cs with
      | d :: _ =>
        if d.isDigit then
          digitsLoop cs
        else ([], c :: cs)
      | [] => ([], [c])
    else ([], c :: cs)

/-- Consume a full `digitpart` (at least one digit, underscores allowed
between digits); `none` when the input does not start with a digit. -/
def takeDigitpart (l : List Char) : Option (List Char × List Char) :=
  match l with
  | c :: cs =>
    if c.isDigit then
      let p := digitsLoop cs
      some (c :: p.1, p.2)
    else none
  | [] => none

/-- Consume the `number` part of CPython's float grammar:
`digitpart ["." [digitpart]] | "." digitpart`.  Returns integer digits,
fraction digits and the unconsumed remainder. -/
def takeNumber (l : List Char) : Option (List Char × List Char × List Char) :=
  match takeDigitpart l with
  | some (ds, rest) =>
    match rest with
    | '.' :: rest2 =>
      match takeDigitpart rest2 with
      | some (fs, rest3) => some (ds, fs, rest3)
      | none => some (ds, [], rest2)
    | _ => some (ds, [], rest)
  | none =>
    match l with
    | '.' :: rest =>
      match takeDigitpart rest with
      | some (fs, rest2) => some ([], fs, rest2)
      | none => none
    | _ => none

/-- Numeric value of a digit list read in base 10. -/
def digitsToNat (ds : List Char) : Nat :=
  ds.foldl (fun n c => 10 * n + (c.toNat - 48)) 0

/-- Consume an optionally signed `digitpart` (the exponent body). -/
def takeSignedDigits (l : List Char) : Option (Int × List Char) :=
  match l with
  | '+' :: rest =>
    (takeDigitpart rest).map (fun p => ((digitsToNat p.1 : Int), p.2))
  | '-' :: rest =>
    (takeDigitpart rest).map (fun p => (-(digitsToNat p.1 : Int), p.2))
  | _ =>
    (takeDigitpart l).map (fun p => ((digitsToNat p.1 : Int), p.2))

/-- Exact rational value `± (I + F / 10^fracLen) · 10^e` of a parsed decimal
literal with integer digits `I`, fraction digits `F` and decimal exponent
`e`, computed with integer arithmetic and a single `mkRat` so that it
evaluates by kernel reduction. -/
def ratOfParts (neg : Bool) (intDigits fracDigits : List Char) (e : Int) : ℚ :=
  let m : Nat := digitsToNat intDigits * 10 ^ fracDigits.length
    + digitsToNat fracDigits
  let n : Int := if neg then -(m : Int) else (m : Int)
  match e with
  | Int.ofNat k => mkRat (n * (10 ^ k : Nat)) (10 ^ fracDigits.length)
  | Int.negSucc k => mkRat n (10 ^ fracDigits.length * 10 ^ (k + 1))

/-- Parse the numeric body `number [exponent]` and apply the sign; the whole
input must be consumed. -/
def parseNumeric (l : List Char) (neg : Bool) : Option ℚ :=
  match takeNumber l with
  | none => none
  | some (ds, fs, rest) =>
    match rest with
    | [] => some (ratOfParts neg ds fs 0)
    | c :: rest2 =>
      if c = 'e' ∨ c = 'E' then
        match takeSignedDigits rest2 with
        | some (e, []) => some (ratOfParts neg ds fs e)
        | _ => none
      else none

/-- Parse the body after the optional sign: the special spellings
`inf` / `infinity` / `nan` (case-insensitive), else a numeric literal. -/
def pyFloatUnsigned (l : List Char) (neg : Bool) : Option PyFloat :=
  let low := l.map Char.toLower
  if low = "inf".data ∨ low = "infinity".data then
    some (if neg then PyFloat.negInf else PyFloat.inf)
  else if low = "nan".data then
    some PyFloat.nan
  else
    (parseNumeric l neg).map PyFloat.finite

/-- Models CPython `float(s)` on a string: strip surrounding whitespace, read
an optional sign, then the body; `none` models `ValueError`. -/
def pyFloat (s : String) : Option PyFloat :=
  match (pyStrip s).data with
  | '+' :: rest => pyFloatUnsigned rest false
  | '-' :: rest => pyFloatUnsigned rest true
  | l => pyFloatUnsigned l false

/-- A `td` cell of a rendered table row, as BeautifulSoup presents it to
`_parse_table`: its text content, and the text of the first `a` element
inside it (`cell.find('a')`), when one exists. -/
structure Cell where
  text : String
  anchor : Option String
deriving DecidableEq

/-- A table row: the list of its `td` cells (`row.find_all('td')`). -/
abbrev Row := List Cell

/-- A table: the list of its `tr` rows (`table.find_all('tr')`). -/
abbrev Table := List Row

/-- The PriceTable of the spec: the Python dict mapping company display name
to price, modelled as an insertion-ordered association list. -/
abbrev PriceTable := List (String × PyFloat)

/-- Python `key in dict`. -/
def keyMember (d : PriceTable) (k : String) : Bool :=
  d.any (fun nv => decide (nv.1 = k))

/-- Python `dict[key]` on the first (hence, in a genuine dict, only) binding
of `key`; `none` when absent. -/
def keyLookup (d : PriceTable) (k : String) : Option PyFloat :=
  (d.find? (fun nv => decide (nv.1 = k))).map Prod.snd

/-- Python dict assignment `d[k] = v`: an existing binding is overwritten in
place, a new key is appended at the end (insertion order). -/
def dictInsert (d : PriceTable) (k : String) (v : PyFloat) : PriceTable :=
  if keyMember d k then
    d.map (fun nv => if nv.1 = k then (k, v) else nv)
  else
    d ++ [(k, v)]

/-- Python `d.update(e)`: assign every binding of `e` into `d` in order
(last-write-wins); models `self.stock_data.update(page2_data)` at line 90 of
`stock_price.py`. -/
def dictUpdate (d e : PriceTable) : PriceTable :=
  e.foldl (fun a nv => dictInsert a nv.1 nv.2) d

/-- The entry one row contributes, mirroring the body of the row loop of
`_parse_table` (lines 117-144 of `stock_price.py`): require at least 3
cells (`len(cols) < 3: continue`), the company name is the stripped text of
the anchor in the second cell (`continue` when there is no anchor), the
price is `float` of the third cell's stripped text with commas removed
(`continue` on `ValueError`). -/
def rowEntry (row : Row) : Option (String × PyFloat) :=
  match row with
  | _ :: nameCell :: priceCell :: _ =>
    match nameCell.anchor with
    | some linkText =>
      match pyFloat (stripCommas (pyStrip priceCell.text)) with
      | some price => some (pyStrip linkText, price)
      | none => none
    | none => none
  | _ => none

/-- One iteration of the row loop of `_parse_table`: a row that yields an
entry is assigned into the dict (`prices[company_name] = price`), a row that
fails any check is skipped and leaves the dict unchanged. -/
def parseRow (prices : PriceTable) (row : Row) : PriceTable :=
  match rowEntry row with
  | some np => dictInsert prices np.1 np.2
  | none => prices

/-- `ScreenerPriceScraper._parse_table` (lines 104-146 of `stock_price.py`).
The HTML document is modelled at soup level as its first table
(`soup.find('table')`), or `none` when the document has no table.  With no
table the empty dict is returned; otherwise the header row is dropped
(`find_all('tr')[1:]`) and the remaining rows are folded through the row
loop starting from the empty dict. -/
def parse_table (html : Option Table) : PriceTable :=
  match html with
  | none => []
  | some table => (table.drop 1).foldl parseRow []

/-- `_parse_table` together with the warnings it emits.  The only
`logger.warning` in the function is "Table not found in HTML" on the
missing-table path (line 112); the per-row messages are `logger.debug` and
the module configures logging at `INFO` level, so they are never emitted. -/
def parse_table_logged (html : Option Table) : PriceTable × List String :=
  match html with
  | none => ([], ["Table not found in HTML"])
  | some table => ((table.drop 1).foldl parseRow [], [])

/-- The data rows `_parse_table` iterates over: everything after the header
row of the first table. -/
def dataRows (html : Option Table) : List Row :=
  match html with
  | none => []
  | some table => table.drop 1

/-- The case-insensitive partial-match loop of `get_price` (lines 183-187 of
`stock_price.py`): return the price of the first entry whose lowercased name
contains `company_lower`, scanning in table iteration order. -/
def substrScan (company_lower : String) : PriceTable → Option PyFloat
  | [] => none
  | nv :: rest =>
    if pyIn company_lower (pyLower nv.1) then some nv.2
    else substrScan company_lower rest

/-- The lookup performed by `ScreenerPriceScraper.get_price` on a loaded
table (lines 178-188 of `stock_price.py`): exact dict membership first, then
the case-insensitive substring scan, else `None`. -/
def get_price_lookup (d : PriceTable) (company_name : String) : Option PyFloat :=
  if keyMember d company_name then
    keyLookup d company_name
  else
    substrScan (pyLower company_name) d

/-- Modelled from the spec's words (§4.4 Lookup / Search), for comparison
with `get_price_lookup`: if the query is an exact key return its price,
otherwise return the first entry in table iteration order whose name
contains the lowercased query as a case-insensitive substring, otherwise
the not-found value. -/
def get_price_spec (d : PriceTable) (q : String) : Option PyFloat :=
  match keyLookup d q with
  | some p => some p
  | none => (d.find? (fun nv => pyIn (pyLower q) (pyLower nv.1))).map Prod.snd

/-- `InteractiveStockFetcher.search_stock` on a loaded table (lines 211-218
of `stock_price.py`): start from the empty list and append every entry whose
lowercased name contains the lowercased query, in table iteration order. -/
def search_stock_matches (d : PriceTable) (query : String) : List (String × PyFloat) :=
  let query_lower := pyLower query
  d.foldl (fun ms nv => if pyIn query_lower (pyLower nv.1) then ms ++ [nv] else ms) []

/-- The stateful part of `ScreenerPriceScraper.get_price` (lines 165-188):
`self.stock_data` is the current table, and `scrapeResult` is the table that
a call to `scrape_all_prices` would produce and store.  The guard is the
dict's truthiness (`if not self.stock_data:`), so a scrape is triggered
exactly when the current table is empty.  Returns the lookup result, the
table after the call, and how many scrapes the call performed. -/
def get_price_stateful (scrapeResult stock_data : PriceTable)
    (company_name : String) : Option PyFloat × PriceTable × Nat :=
  if stock_data.isEmpty then
    (get_price_lookup scrapeResult company_name, scrapeResult, 1)
  else
    (get_price_lookup stock_data company_name, stock_data, 0)

/-- Observable browser-session events of one `scrape_all_prices` call. -/
inductive Event where
  | driverCreated
  | nextClicked
  | driverQuit
deriving DecidableEq

/-- The environment of one `scrape_all_prices` call.  Each Bool marks
whether the corresponding fallible driver call succeeds or raises:
`chromeOk` is `webdriver.Chrome(...)` in `_setup_driver` (when it raises,
`self.driver` is still `None`), `getOk` is `driver.get(url)`, `waitOk` is
the `WebDriverWait(...).until(...)` for the table.  `page1` and `page2` are
the soup-level parses of `driver.page_source` before and after the
pagination hop; `hasNext` is whether `find_element(By.LINK_TEXT, "Next")`
succeeds in `_has_next_page` (which catches its own exception, returning
`False`).  A click failure inside `_click_next_page` is caught there and
only affects what `page2` renders, so it needs no separate flag. -/
structure ScrapeEnv where
  chromeOk : Bool
  getOk : Bool
  waitOk : Bool
  page1 : Option Table
  hasNext : Bool
  page2 : Option Table
deriving DecidableEq

/-- `ScreenerPriceScraper.scrape_all_prices` (lines 57-102 of
`stock_price.py`): the try body acquires the driver, loads and parses page
1, and when a "Next" control is present clicks it once and merges page 2
with `dict.update`; any exception is caught and `{}` returned; the
`finally` block quits the driver whenever one was created.  Returns the
resulting table and the session-event trace in order. -/
def scrape_all_prices (env : ScrapeEnv) : PriceTable × List Event :=
  if env.chromeOk then
    if env.getOk then
      if env.waitOk then
        let data1 := parse_table env.page1
        if env.hasNext then
          (dictUpdate data1 (parse_table env.page2),
            [Event.driverCreated, Event.nextClicked, Event.driverQuit])
        else
          (data1, [Event.driverCreated, Event.driverQuit])
      else ([], [Event.driverCreated, Event.driverQuit])
    else ([], [Event.driverCreated, Event.driverQuit])
  else ([], [])

/-- What the quote provider returns for one normalized symbol, at the level
`NIFTY50StockPrice.get_price` consumes it: `lastPrice` models
`stock.fast_info.get('lastPrice')` (`none` when the field is absent), and
`histClose` models `hist['Close'].iloc[-1]` of `stock.history(period='1d')`
(`none` when the history frame is empty). -/
structure Quote where
  lastPrice : Option ℚ
  histClose : Option ℚ

/-- The symbol normalization of `NIFTY50StockPrice.get_price` (lines 40-41
of `main.py`): append the exchange suffix `.NS` when the ticker does not
already end with it. -/
def normalizeTicker (t : String) : String :=
  if pyEndsWith t ".NS" then t else t ++ ".NS"

/-- The fallback logic of `NIFTY50StockPrice.get_price` (lines 49-62 of
`main.py`) on the provider's answer: take the fast price; when it is `None`
or `== 0`, replace it by the one-day historical close when the history is
nonempty; when the result is still `None` or `== 0`, return `None`. -/
def quotePrice (q : Quote) : Option ℚ :=
  let price := q.lastPrice
  let price :=
    if price = none ∨ price = some 0 then
      match q.histClose with
      | some c => some c
      | none => price
    else price
  if price = none ∨ price = some 0 then none else price

/-- `NIFTY50StockPrice.get_price` (lines 22-66 of `main.py`) with the
provider abstracted as a function from the normalized ticker to its
`Quote`. -/
def NIFTY50_get_price (fetch : String → Quote) (ticker : String) : Option ℚ :=
  quotePrice (fetch (normalizeTicker ticker))

/-- The header-plus-3-data-rows example table of the spec (§8): rows
Reliance Industries 1,531.75 and HDFC Bank 1,004.00 parse, XYZ Corp "n/a"
does not. -/
def screenerHeader : Row :=
  [⟨"S.No.", none⟩, ⟨"Name", none⟩, ⟨"CMP", none⟩]

/-- Data row `["1", "Reliance Industries", "1,531.75"]` with the name as an
anchor. -/
def relianceRow : Row :=
  [⟨"1", none⟩, ⟨"Reliance Industries", some "Reliance Industries"⟩,
    ⟨"1,531.75", none⟩]

/-- Data row `["2", "HDFC Bank", "1,004.00"]` with the name as an anchor. -/
def hdfcRow : Row :=
  [⟨"2", none⟩, ⟨"HDFC Bank", some "HDFC Bank"⟩, ⟨"1,004.00", none⟩]

/-- Data row `["3", "XYZ Corp", "n/a"]` with the name as an anchor and an
unparseable price. -/
def xyzRow : Row :=
  [⟨"3", none⟩, ⟨"XYZ Corp", some "XYZ Corp"⟩, ⟨"n/a", none⟩]

/-- The spec's end-to-end example table: one header row plus the three data
rows above. -/
def screenerExample : Table :=
  [screenerHeader, relianceRow, hdfcRow, xyzRow]

/-- A row whose price cell reads `inf`, which CPython `float()` parses
successfully as positive infinity. -/
def infRow : Row :=
  [⟨"1", none⟩, ⟨"Infinity Corp", some "Infinity Corp"⟩, ⟨"inf", none⟩]

/-- A table whose single data row stores an infinite price. -/
def infTable : Table :=
  [screenerHeader, infRow]

/-- Page-1 table of the spec's pagination example: one data row A ↦ 10.0. -/
def pageATable : Table :=
  [screenerHeader, [⟨"1", none⟩, ⟨"A", some "A"⟩, ⟨"10.0", none⟩]]

/-- Page-2 table of the spec's pagination example: one data row B ↦ 20.0. -/
def pageBTable : Table :=
  [screenerHeader, [⟨"1", none⟩, ⟨"B", some "B"⟩, ⟨"20.0", none⟩]]

/-- A successful two-page scrape session over the pagination example. -/
def envPag : ScrapeEnv :=
  ⟨true, true, true, some pageATable, true, some pageBTable⟩

/-- A session whose `driver.get` raises after the driver was created. -/
def envGetFails : ScrapeEnv :=
  ⟨true, false, true, none, false, none⟩

/-- A small loaded table containing both "TCS" and "TCS Digital". -/
def demoTable : PriceTable :=
  [("TCS", PyFloat.finite 3000), ("TCS Digital", PyFloat.finite 500)]

theorem startsWithSeq_append_self (a b : List Char) :
    startsWithSeq a (a ++ b) = true := by
  induction a with
  | nil => rfl
  | cons c cs ih => simp [startsWithSeq, ih]

theorem dictInsert_of_not_mem {d : PriceTable} {k : String} (v : PyFloat)
    (h : keyMember d k = false) : dictInsert d k v = d ++ [(k, v)] := by
  simp [dictInsert, h]

theorem keyMember_append (d e : PriceTable) (k : String) :
    keyMember (d ++ e) k = (keyMember d k || keyMember e k) := by
  simp [keyMember]

/-- Each loop iteration of `_parse_table` grows the dict by one entry per
parseable row, as long as the parseable rows carry pairwise-distinct names
that are also fresh for the accumulator. -/
theorem length_foldl_parseRow (rows : List Row) (acc : PriceTable)
    (hnodup : ((rows.filterMap rowEntry).map Prod.fst).Nodup)
    (hfresh : ∀ e ∈ rows.filterMap rowEntry, keyMember acc e.1 = false) :
    (rows.foldl parseRow acc).length
      = acc.length + rows.countP (fun r => (rowEntry r).isSome) := by
  induction rows generalizing acc with
  | nil => simp
  | cons r rs ih =>
    cases hre : rowEntry r with
    | none =>
      rw [List.filterMap_cons_none hre] at hnodup hfresh
      have hstep : parseRow acc r = acc := by simp [parseRow, hre]
      rw [List.foldl_cons, hstep, ih acc hnodup hfresh, List.countP_cons]
      simp [hre]
    | some e =>
      obtain ⟨n, p⟩ := e
      rw [List.filterMap_cons_some hre] at hnodup hfresh
      have hfr : keyMember acc n = false := hfresh (n, p) (List.mem_cons_self _ _)
      have hstep : parseRow acc r = acc ++ [(n, p)] := by
        simp [parseRow, hre, dictInsert_of_not_mem _ hfr]
      rw [List.map_cons, List.nodup_cons] at hnodup
      obtain ⟨hnotin, hnodup2⟩ := hnodup
      have hfresh2 : ∀ e ∈ rs.filterMap rowEntry,
          keyMember (acc ++ [(n, p)]) e.1 = false := by
        intro e he
        have hmm : e.1 ∈ (rs.filterMap rowEntry).map Prod.fst :=
          List.mem_map_of_mem Prod.fst he
        have hne : ¬ n = e.1 := fun hc => hnotin (by rw [hc]; exact hmm)
        have h1 : keyMember acc e.1 = false := hfresh e (List.mem_cons_of_mem _ he)
        rw [keyMember_append, h1]
        simp [keyMember]
        exact hne
      rw [List.foldl_cons, hstep, ih (acc ++ [(n, p)]) hnodup2 hfresh2,
        List.countP_cons]
      simp [hre]
      omega

/-- Claim C1: for every HTML document whose first table has a header row
plus N data rows, `_parse_table` skips the header, and when exactly one data
row fails to yield an entry while all other rows are valid with pairwise
distinct names, the resulting PriceTable has exactly N − 1 entries: the bad
row is dropped without aborting extraction of the remaining rows. -/
theorem parse_table_row_fault_isolation (header bad : Row) (pre post : List Row)
    (hbad : rowEntry bad = none)
    (hgood : ∀ r ∈ pre ++ post, (rowEntry r).isSome = true)
    (hnames : (((pre ++ post).filterMap rowEntry).map Prod.fst).Nodup) :
    (parse_table (some (header :: (pre ++ bad :: post)))).length
      = (pre ++ bad :: post).length - 1 := by
  have hfold : parse_table (some (header :: (pre ++ bad :: post)))
      = (pre ++ bad :: post).foldl parseRow [] := rfl
  have hfm : (pre ++ bad :: post).filterMap rowEntry
      = (pre ++ post).filterMap rowEntry := by
    simp [List.filterMap_append, List.filterMap_cons_none hbad]
  have hfresh : ∀ e ∈ (pre ++ bad :: post).filterMap rowEntry,
      keyMember [] e.1 = false := fun _ _ => rfl
  rw [hfold, length_foldl_parseRow _ _ (by rw [hfm]; exact hnames) hfresh]
  have hp : pre.countP (fun r => (rowEntry r).isSome) = pre.length :=
    List.countP_eq_length.mpr (fun r hr => hgood r (List.mem_append_left _ hr))
  have hq : post.countP (fun r => (rowEntry r).isSome) = post.length :=
    List.countP_eq_length.mpr (fun r hr => hgood r (List.mem_append_right _ hr))
  rw [List.countP_append, List.countP_cons, hp, hq]
  simp [hbad, List.length_append]

/-- Witness for C1 at the spec's end-to-end example: 3 data rows, the XYZ
Corp row has price "n/a", and the extractor keeps exactly 2 entries. -/
theorem parse_table_row_fault_isolation_witness :
    (parse_table (some screenerExample)).length = 2 :=
  parse_table_row_fault_isolation screenerHeader xyzRow [relianceRow, hdfcRow]
    [] (by decide) (by decide) (by decide)

/-- Claim C2: every execution of `scrape_all_prices` that created a browser
session releases it before returning, on every exit path including the
exception paths: whenever the trace contains the creation event, its last
event is the quit event. -/
theorem scrape_releases_driver (env : ScrapeEnv)
    (h : Event.driverCreated ∈ (scrape_all_prices env).2) :
    (scrape_all_prices env).2.getLast? = some Event.driverQuit := by
  obtain ⟨c, g, w, p1, hn, p2⟩ := env
  cases c
  · simp [scrape_all_prices] at h
  · cases g
    · rfl
    · cases w
      · rfl
      · cases hn
        · rfl
        · rfl

/-- Witness for C2: a session where `driver.get` raises after the driver
was created still ends its trace with the quit event. -/
theorem scrape_releases_driver_witness :
    (scrape_all_prices envGetFails).2.getLast? = some Event.driverQuit :=
  scrape_releases_driver envGetFails (by decide)

/-- Claim C7: on a successful scrape, when the "Next" control is present it
is invoked exactly once and page 2 is merged into the page-1 table with the
last-write-wins `dict.update` rule; when it is absent the result is the
page-1 data alone and the control is never invoked; no third page is ever
attempted. -/
theorem scrape_pagination (env : ScrapeEnv)
    (hc : env.chromeOk = true) (hg : env.getOk = true) (hw : env.waitOk = true) :
    (scrape_all_prices env).1
      = (if env.hasNext then
          dictUpdate (parse_table env.page1) (parse_table env.page2)
        else parse_table env.page1)
    ∧ (scrape_all_prices env).2.countP (fun e => decide (e = Event.nextClicked))
      = (if env.hasNext then 1 else 0) := by
  obtain ⟨c, g, w, p1, hn, p2⟩ := env
  dsimp only at hc hg hw ⊢
  subst hc
  subst hg
  subst hw
  cases hn
  · exact ⟨rfl, rfl⟩
  · exact ⟨rfl, rfl⟩

/-- Witness for C7 at the spec's pagination example: page 1 yields A ↦ 10.0,
"Next" is present, page 2 yields B ↦ 20.0, and the merged result is their
union with one click of the control. -/
theorem scrape_pagination_witness :
    (scrape_all_prices envPag).1 = [("A", PyFloat.finite 10), ("B", PyFloat.finite 20)]
    ∧ (scrape_all_prices envPag).2.countP (fun e => decide (e = Event.nextClicked)) = 1 := by
  have h := scrape_pagination envPag rfl rfl rfl
  constructor
  · rw [h.1]; decide
  · rw [h.2]; decide

/-- Claim C8: for every HTML document containing no table element,
`_parse_table` returns the empty PriceTable, emitting the "Table not found
in HTML" warning, instead of raising; and the logged variant always
computes the same table as `parse_table`. -/
theorem parse_table_missing_table_graceful :
    parse_table none = []
    ∧ parse_table_logged none = ([], ["Table not found in HTML"])
    ∧ ∀ html : Option Table, (parse_table_logged html).1 = parse_table html := by
  refine ⟨rfl, rfl, ?_⟩
  intro html
  cases html <;> rfl

/-- Claim C9: the symbol normalization of `NIFTY50StockPrice.get_price` is
idempotent — appending the ".NS" suffix when it is missing never appends it
a second time. -/
theorem normalizeTicker_idempotent (s : String) :
    normalizeTicker (normalizeTicker s) = normalizeTicker s := by
  by_cases h : pyEndsWith s ".NS" = true
  · have h1 : normalizeTicker s = s := by simp [normalizeTicker, h]
    rw [h1, h1]
  · have h1 : normalizeTicker s = s ++ ".NS" := by simp [normalizeTicker, h]
    have happ : pyEndsWith (s ++ ".NS") ".NS" = true := by
      unfold pyEndsWith
      rw [String.data_append, List.reverse_append]
      exact startsWithSeq_append_self _ _
    have h2 : normalizeTicker (s ++ ".NS") = s ++ ".NS" := by
      simp [normalizeTicker, happ]
    rw [h1, h2]

/-- Claim C5: `NIFTY50StockPrice.get_price` returns the provider's fast
last-price when present and nonzero; when that field is absent or exactly
zero it returns the one-day historical close instead; and when both are
absent or zero it returns the explicit no-price value `none` rather than
raising. -/
theorem nifty_price_fallback (fetch : String → Quote) (ticker : String) :
    (∀ p, (fetch (normalizeTicker ticker)).lastPrice = some p → ¬ p = 0 →
      NIFTY50_get_price fetch ticker = some p)
    ∧ (((fetch (normalizeTicker ticker)).lastPrice = none
        ∨ (fetch (normalizeTicker ticker)).lastPrice = some 0) →
      ∀ c, (fetch (normalizeTicker ticker)).histClose = some c → ¬ c = 0 →
        NIFTY50_get_price fetch ticker = some c)
    ∧ (((fetch (normalizeTicker ticker)).lastPrice = none
        ∨ (fetch (normalizeTicker ticker)).lastPrice = some 0) →
      ((fetch (normalizeTicker ticker)).histClose = none
        ∨ (fetch (normalizeTicker ticker)).histClose = some 0) →
      NIFTY50_get_price fetch ticker = none) := by
  simp only [NIFTY50_get_price]
  generalize fetch (normalizeTicker ticker) = q
  obtain ⟨fast, hist⟩ := q
  refine ⟨?_, ?_, ?_⟩
  · intro p hp hp0
    subst hp
    simp [quotePrice, hp0]
  · rintro (hf | hf) c hc hc0 <;> subst hf <;> subst hc <;>
      simp [quotePrice, hc0]
  · rintro (hf | hf) (hh | hh) <;> subst hf <;> subst hh <;>
      simp [quotePrice]

/-- Witness for C5 at the spec's fallback example: fast price absent,
historical close 99.5, the returned price is 99.5. -/
theorem nifty_price_fallback_witness :
    NIFTY50_get_price (fun _ => ⟨none, some (mkRat 199 2)⟩) "RELIANCE"
      = some (mkRat 199 2) :=
  (nifty_price_fallback (fun _ => ⟨none, some (mkRat 199 2)⟩) "RELIANCE").2.1
    (Or.inl rfl) (mkRat 199 2) rfl (by decide)

/-- Counterexample for C3: the lazy-load guard of `get_price` is the
truthiness of `self.stock_data`, so when the first scrape stores an empty
table the second lookup performs one more scrape — not zero, as the claim
states for "regardless of what the first scrape returned". -/
theorem lazy_load_counterexample :
    (get_price_stateful [] [] "TCS").2.2 = 1
    ∧ (get_price_stateful [] ((get_price_stateful [] [] "TCS").2.1) "TCS").2.2
      = 1 := by
  exact ⟨rfl, rfl⟩

/-- Claim C3 (amended): on a fresh scraper the first lookup triggers exactly
one scrape and stores its result; provided that scrape returned a nonempty
table, every subsequent lookup triggers zero additional scrapes and reuses
the already-loaded table. -/
theorem lazy_load_on_first_use (scrapeResult : PriceTable) (q1 q2 : String)
    (h : scrapeResult.isEmpty = false) :
    (get_price_stateful scrapeResult [] q1).2.2 = 1
    ∧ (get_price_stateful scrapeResult [] q1).2.1 = scrapeResult
    ∧ (get_price_stateful scrapeResult
        ((get_price_stateful scrapeResult [] q1).2.1) q2).2.2 = 0
    ∧ (get_price_stateful scrapeResult
        ((get_price_stateful scrapeResult [] q1).2.1) q2).2.1 = scrapeResult := by
  have h1 : (get_price_stateful scrapeResult [] q1).2.1 = scrapeResult := by
    simp [get_price_stateful]
  refine ⟨by simp [get_price_stateful], h1, ?_, ?_⟩ <;>
    rw [h1] <;> simp [get_price_stateful, h]

/-- Witness for C3's amended statement on a nonempty scrape result. -/
theorem lazy_load_on_first_use_witness :
    (get_price_stateful demoTable [] "TCS").2.2 = 1
    ∧ (get_price_stateful demoTable [] "TCS").2.1 = demoTable
    ∧ (get_price_stateful demoTable
        ((get_price_stateful demoTable [] "TCS").2.1) "Digital").2.2 = 0
    ∧ (get_price_stateful demoTable
        ((get_price_stateful demoTable [] "TCS").2.1) "Digital").2.1 = demoTable :=
  lazy_load_on_first_use demoTable "TCS" "Digital" (by decide)

theorem keyMember_eq_isSome (d : PriceTable) (k : String) :
    keyMember d k = (keyLookup d k).isSome := by
  induction d with
  | nil => rfl
  | cons nv rest ih =>
    by_cases h : nv.1 = k
    · simp [keyMember, keyLookup, List.any_cons, h]
    · simp only [keyMember, keyLookup, List.any_cons] at ih ⊢
      rw [List.find?_cons_of_neg _ (by simpa using h)]
      simp [h, ih]

theorem substrScan_eq_find? (ql : String) (d : PriceTable) :
    substrScan ql d = (d.find? (fun nv => pyIn ql (pyLower nv.1))).map Prod.snd := by
  induction d with
  | nil => rfl
  | cons nv rest ih =>
    by_cases h : pyIn ql (pyLower nv.1) = true
    · simp [substrScan, List.find?, h]
    · simp [substrScan, List.find?, h, ih]

/-- Claim C4: on a loaded table, `get_price` resolves a query by the
case-sensitive exact key when the query is a key, otherwise by the first
entry in table iteration order whose name contains the lowercased query as
a case-insensitive substring, otherwise to `none` — i.e. the source lookup
coincides with the resolution order stated by the spec. -/
theorem get_price_resolution_order (d : PriceTable) (q : String) :
    get_price_lookup d q = get_price_spec d q := by
  unfold get_price_lookup get_price_spec
  have hs := keyMember_eq_isSome d q
  by_cases h : keyMember d q = true
  · rw [if_pos h]
    rw [h] at hs
    cases hk : keyLookup d q with
    | none => rw [hk] at hs; simp at hs
    | some p => rfl
  · have h2 : keyMember d q = false := by simpa using h
    rw [if_neg h]
    rw [h2] at hs
    cases hk : keyLookup d q with
    | some p => rw [hk] at hs; simp at hs
    | none => exact substrScan_eq_find? (pyLower q) d

theorem mem_dictInsert {d : PriceTable} {k : String} {v : PyFloat}
    {x : String × PyFloat} (h : x ∈ dictInsert d k v) : x = (k, v) ∨ x ∈ d := by
  unfold dictInsert at h
  by_cases hk : keyMember d k = true
  · rw [if_pos hk] at h
    obtain ⟨y, hy, hxy⟩ := List.mem_map.mp h
    by_cases h1 : y.1 = k
    · rw [if_pos h1] at hxy; left; exact hxy.symm
    · rw [if_neg h1] at hxy; right; exact hxy ▸ hy
  · rw [if_neg hk] at h
    rcases List.mem_append.mp h with h2 | h2
    · right; exact h2
    · left; simpa using h2

theorem mem_foldl_parseRow (rows : List Row) (acc : PriceTable)
    (x : String × PyFloat) (h : x ∈ rows.foldl parseRow acc) :
    x ∈ acc ∨ ∃ r ∈ rows, rowEntry r = some x := by
  induction rows generalizing acc with
  | nil => left; simpa using h
  | cons r rs ih =>
    rw [List.foldl_cons] at h
    rcases ih (parseRow acc r) h with hx | ⟨r2, hr2, he2⟩
    · cases hre : rowEntry r with
      | none =>
        simp only [parseRow, hre] at hx
        left; exact hx
      | some e =>
        simp only [parseRow, hre] at hx
        rcases mem_dictInsert hx with he | hmem
        · right
          refine ⟨r, List.mem_cons_self _ _, ?_⟩
          rw [hre, he]
        · left; exact hmem
    · right; exact ⟨r2, List.mem_cons_of_mem _ hr2, he2⟩

/-- Counterexample for C6: a price cell reading "inf" parses successfully
under Python `float()`, so `_parse_table` stores a value that is not a
finite decimal number. -/
theorem parse_table_stores_nonfinite :
    parse_table (some infTable) = [("Infinity Corp", PyFloat.inf)]
    ∧ PyFloat.isFinite PyFloat.inf = false :=
  ⟨by decide, rfl⟩

/-- Claim C6 (amended): every binding stored in the PriceTable produced by
`_parse_table` comes from a data row whose price cell parsed successfully
under `float()` — rows whose price fails to parse contribute no entry and no
null/absent values are ever stored — but the stored number need not be
finite: cell text spelling an infinity or NaN parses successfully and is
stored as a non-finite value. -/
theorem parse_table_values_parsed (html : Option Table) (n : String)
    (v : PyFloat) (h : (n, v) ∈ parse_table html) :
    ∃ r ∈ dataRows html, rowEntry r = some (n, v) := by
  cases html with
  | none => simp [parse_table] at h
  | some t =>
    have hfold : parse_table (some t) = (t.drop 1).foldl parseRow [] := rfl
    rw [hfold] at h
    rcases mem_foldl_parseRow (t.drop 1) [] (n, v) h with hx | hx
    · simp at hx
    · simpa [dataRows] using hx

/-- Witness for C6's amended statement: the stored Reliance Industries
binding of the end-to-end example comes from its data row's parsed price
cell. -/
theorem parse_table_values_parsed_witness :
    ∃ r ∈ dataRows (some screenerExample),
      rowEntry r = some ("Reliance Industries", PyFloat.finite (mkRat 153175 100)) :=
  parse_table_values_parsed (some screenerExample) "Reliance Industries"
    (PyFloat.finite (mkRat 153175 100)) (by decide)

theorem search_foldl_all (ql : String) (d : PriceTable)
    (acc : List (String × PyFloat))
    (h : ∀ nv ∈ d, pyIn ql (pyLower nv.1) = true) :
    d.foldl (fun ms nv => if pyIn ql (pyLower nv.1) then ms ++ [nv] else ms) acc
      = acc ++ d := by
  induction d generalizing acc with
  | nil => simp
  | cons nv rest ih =>
    rw [List.foldl_cons, if_pos (h nv (List.mem_cons_self _ _)),
      ih (acc ++ [nv]) (fun x hx => h x (List.mem_cons_of_mem _ hx))]
    simp

/-- Claim C10: on a loaded table, `search_stock` with a query that is a
substring of every (lowercased) name — in particular the empty query —
returns all entries of the table in table iteration order; the empty query
is not rejected and does not produce an empty result. -/
theorem search_stock_returns_all (d : PriceTable) (q : String)
    (h : ∀ nv ∈ d, pyIn (pyLower q) (pyLower nv.1) = true) :
    search_stock_matches d q = d := by
  unfold search_stock_matches
  simpa using search_foldl_all (pyLower q) d [] h

/-- Witness for C10: the empty query returns the whole demo table. -/
theorem search_stock_returns_all_witness :
    search_stock_matches demoTable "" = demoTable :=
  search_stock_returns_all demoTable "" (by decide)

end Livestock
